import Mathlib

/-!
Verification of the parquetChecker TUI (Go, bubbletea) against its
natural-language specification.

The Go program is shallowly embedded below.  The embedding follows the
source file function by function:

* `Rec` models the closed set of record shapes the program dispatches on
  (`map[string]interface{}`, a reflected struct, anything else).  Cell
  values are carried as the strings `fmt.Sprintf("%v", v)` would render,
  since the program only ever observes values through that rendering.
  A `mapShaped` value carries its key/value pairs in the iteration order
  observed when the Go map is ranged over: a Go map value does not fix
  such an order, so two `mapShaped` lists that are permutations of each
  other model the same map on two different runs.
* `extractColumns` embeds the column-derivation switch of
  `loadParquetData` (lines 340-376 of the source).
* `decodeRow` embeds the record-to-row conversion shared by
  `loadParquetData` (lines 414-468) and `loadMoreRows` (lines 501-555).
* `Model`, `Msg`, `Cmd`, `Model.update` embed the bubbletea model and its
  `Update` function, including Go's fall-through from the message switch
  into the input-view / table-view blocks.  The two places where the Go
  code can panic (indexing `m.parquetFiles[m.selectedFile]` unchecked,
  and slicing `m.rows[1:]` of an empty slice) are modelled by `Option`:
  `none` is a runtime panic.
* `loadParquetData` / `loadMoreRows` embed the background commands as
  functions of the (decoded) file contents; a valid file is one whose
  in-range reads always yield one record, which is how the parquet
  reader behaves on well-formed files.
* The bubbles `table` and `textinput` widgets are external collaborators;
  they are modelled by the part of their behaviour the program observes:
  the table clamps its cursor into `[0, len(rows)-1]` on up/down moves,
  the text input appends typed single-character keys.
-/

/-- One reflected struct field: Go identifier, its `parquet` struct tag
(`""` when absent), and the `fmt`-rendered field value. -/
structure StructField where
  name : String
  tag : String
  value : String
deriving DecidableEq

/-- The closed set of record shapes the program dispatches on
(map-shaped, struct-shaped, anything else). -/
inductive Rec
  | mapShaped (pairs : List (String × String))
  | structShaped (fields : List StructField)
  | other
deriving DecidableEq

/-- Model of Go `strings.Split(s, ",")` at the character level
(structural recursion so that proofs and `decide` can evaluate it). -/
def splitCommaChars : List Char → List (List Char)
  | [] => [[]]
  | c :: rest =>
    match splitCommaChars rest with
    | [] => [[c]]
    | h :: t => if c = ',' then [] :: h :: t else (c :: h) :: t

/-- Model of Go `strings.Split(tag, ",")`. -/
def tagParts (tag : String) : List String :=
  (splitCommaChars tag.data).map String.mk

/-- Model of `strings.HasPrefix(part, "name=")` combined with
`strings.TrimPrefix(part, "name=")`: returns the remainder when the
part begins with `name=`. -/
def nameAttr : List Char → Option (List Char)
  | 'n' :: 'a' :: 'm' :: 'e' :: '=' :: rest => some rest
  | _ => none

/-- Model of Go `strings.TrimSpace`. -/
def trimChars (cs : List Char) : List Char :=
  ((cs.dropWhile Char.isWhitespace).reverse.dropWhile Char.isWhitespace).reverse

/-- Inner loop of the schema-extraction switch (source lines 360-368):
take the first `name=` part of the tag, trimmed; the loop breaks after
appending it. -/
def firstTagName : List String → Option String
  | [] => none
  | p :: rest =>
    match nameAttr p.data with
    | some r => some (String.mk (trimChars r))
    | none => firstTagName rest

/-- Loop over struct fields of the schema-extraction switch
(source lines 353-374): a field with a non-empty tag contributes the
first `name=` attribute of its tag if there is one (and nothing
otherwise); a field with no tag contributes its own identifier. -/
def structCols : List StructField → List String
  | [] => []
  | f :: rest =>
    if f.tag = "" then f.name :: structCols rest
    else
      match firstTagName (tagParts f.tag) with
      | some n => n :: structCols rest
      | none => structCols rest

/-- Schema extraction from the sample record (source lines 340-376).
For a map-shaped record the keys are taken in the iteration order the
`mapShaped` value records; for a struct-shaped record the declared
fields are walked in order; any other shape yields no columns. -/
def extractColumns : Rec → List String
  | .mapShaped pairs => pairs.map Prod.fst
  | .structShaped fields => structCols fields
  | .other => []

/-- Whether a tag matches a column in the row-decoding loop
(source lines 439-451): unlike extraction, the decode loop keeps
scanning the tag parts until some `name=` part equals the column. -/
def tagMatches (tag col : String) : Bool :=
  (tagParts tag).any fun p =>
    match nameAttr p.data with
    | some r => String.mk (trimChars r) == col
    | none => false

/-- StructField scan of the struct branch of the row decoder for one column
(source lines 431-460), with the `found` flag threaded exactly as in
the Go loop.  A tagged match appends the value and keeps scanning the
remaining fields (the `break` only leaves the tag-part loop); an
untagged identifier match appends the value and stops the field scan;
if nothing was appended the placeholder cell is produced. -/
def colCells (col : String) : List StructField → Bool → List String
  | [], found => if found then [] else ["<nil>"]
  | f :: rest, found =>
    if f.tag = "" then
      if f.name = col then [f.value]
      else colCells col rest found
    else
      if tagMatches f.tag col then f.value :: colCells col rest true
      else colCells col rest found

/-- Row decoder (source lines 414-468 and 501-555): renders one record
into string cells, walking the column list in order. -/
def decodeRow (columns : List String) : Rec → List String
  | .mapShaped pairs =>
    columns.flatMap fun col =>
      match List.lookup col pairs with
      | some v => [v]
      | none => ["<nil>"]
  | .structShaped fields =>
    columns.flatMap fun col => colCells col fields false
  | .other =>
    columns.flatMap fun _ => ["<unsupported>"]

/-- A table row is a list of rendered cells. -/
abbrev Row := List String

/-- The three view states (source lines 22-26). -/
inductive ViewState
  | InputView
  | FileSelectView
  | TableView
deriving DecidableEq

/-- The part of the bubbles table widget the program observes: the rows
it was given and its cursor. -/
structure TableModel where
  rows : List Row
  cursor : Int
deriving DecidableEq

/-- The bubbletea model (source lines 29-45).  `parquetReader` holds the
records the forward-only reader has not yet delivered; `none` is a nil
reader.  The `parquetFile` handle and the widget styling carry no
behaviour observed by the claims and are omitted. -/
structure Model where
  table : TableModel
  textInputValue : String
  filePath : String
  error : Option String
  columns : List String
  rows : List Row
  maxRows : Nat
  isLoading : Bool
  viewState : ViewState
  parquetFiles : List String
  selectedFile : Int
  currentRowOffset : Nat
  totalRows : Nat
  parquetReader : Option (List Rec)
deriving DecidableEq

/-- The messages consumed by `Update` (source lines 250-269). -/
inductive Msg
  | parquetFilesMsg (files : List String)
  | keyMsg (key : String)
  | parquetDataMsg (err : Option String) (columns : List String)
      (rows : List Row) (totalRows : Nat) (reader : Option (List Rec))
  | moreRowsMsg (err : Option String) (newRow : Row)
deriving DecidableEq

/-- The commands `Update` can issue. -/
inductive Cmd
  | noCmd
  | quit
  | findFiles
  | loadData (path : String) (maxRows : Nat)
  | loadMore
deriving DecidableEq

/-- Bubbles' clamp helper. -/
def clampInt (v lo hi : Int) : Int := min (max v lo) hi

/-- The cursor movement of the bubbles table on the key bindings the
program relies on (`up`/`k`, `down`/`j`); any other message leaves the
widget unchanged. -/
def tableUpdate (t : TableModel) (msg : Msg) : TableModel :=
  match msg with
  | .keyMsg k =>
    if k = "up" ∨ k = "k" then
      { t with cursor := clampInt (t.cursor - 1) 0 ((t.rows.length : Int) - 1) }
    else if k = "down" ∨ k = "j" then
      { t with cursor := clampInt (t.cursor + 1) 0 ((t.rows.length : Int) - 1) }
    else t
  | _ => t

/-- The text input appends typed single-character keys; other messages
leave its value unchanged. -/
def textInputUpdate (v : String) (msg : Msg) : String :=
  match msg with
  | .keyMsg k => if k.length = 1 then v ++ k else v
  | _ => v

/-- The specification's `globalOffset`: the count of rows evicted from
the front of the window since the file was opened.  The source tracks
`currentRowOffset` = rows read so far, so the eviction count is
`currentRowOffset - len(rows)`. -/
def Model.globalOffset (m : Model) : Int :=
  (m.currentRowOffset : Int) - (m.rows.length : Int)

/-- The code that runs after the message switch when a case did not
return (source lines 183-202): the input-view block forwards the
message to the text input; the table-view block forwards it to the
table and issues `loadMoreRows` when the cursor made forward progress
onto the last visible row and `currentRowOffset+len(rows) < totalRows`. -/
def viewBlocks (m : Model) (msg : Msg) : Model × Cmd :=
  if m.viewState = .InputView then
    ({ m with textInputValue := textInputUpdate m.textInputValue msg }, .noCmd)
  else if m.viewState = .TableView then
    if (tableUpdate m.table msg).cursor > m.table.cursor ∧
        (tableUpdate m.table msg).cursor = (m.rows.length : Int) - 1 ∧
        m.currentRowOffset + m.rows.length < m.totalRows then
      ({ m with table := tableUpdate m.table msg }, .loadMore)
    else
      ({ m with table := tableUpdate m.table msg }, .noCmd)
  else (m, .noCmd)

/-- The `Update` function (source lines 56-205).  `none` models a Go
runtime panic: indexing `m.parquetFiles[m.selectedFile]` out of range
(line 94), or slicing `m.rows[1:]` of an empty slice (line 166).
Closing the parquet file on `q`/`esc` is modelled as succeeding. -/
def Model.update (m : Model) (msg : Msg) : Option (Model × Cmd) :=
  match msg with
  | .parquetFilesMsg files =>
    some ({ m with
            parquetFiles := files,
            viewState := if 0 < files.length then .FileSelectView else m.viewState },
      .noCmd)
  | .keyMsg key =>
    if key = "ctrl+d" then some (m, .quit)
    else if key = "q" ∨ key = "esc" then
      if m.viewState = .TableView then
        some ({ m with parquetReader := none, viewState := .FileSelectView }, .findFiles)
      else some (viewBlocks m msg)
    else if key = "enter" then
      if m.viewState = .InputView ∧ m.textInputValue ≠ "" then
        some ({ m with
                filePath := m.textInputValue, isLoading := true,
                viewState := .TableView },
          .loadData m.textInputValue m.maxRows)
      else if m.viewState = .FileSelectView ∧ 0 < m.parquetFiles.length then
        match (if 0 ≤ m.selectedFile then m.parquetFiles.get? m.selectedFile.toNat
               else none) with
        | some f =>
          some ({ m with filePath := f, isLoading := true, viewState := .TableView },
            .loadData f m.maxRows)
        | none => none
      else some (viewBlocks m msg)
    else if key = "up" ∨ key = "k" then
      if m.viewState = .FileSelectView then
        some (viewBlocks
          { m with selectedFile :=
              if m.selectedFile - 1 < 0 then (m.parquetFiles.length : Int) - 1
              else m.selectedFile - 1 } msg)
      else some (viewBlocks m msg)
    else if key = "down" ∨ key = "j" then
      if m.viewState = .FileSelectView then
        some (viewBlocks
          { m with selectedFile :=
              if (m.parquetFiles.length : Int) ≤ m.selectedFile + 1 then 0
              else m.selectedFile + 1 } msg)
      else some (viewBlocks m msg)
    else some (viewBlocks m msg)
  | .parquetDataMsg err columns rows totalRows rd =>
    match err with
    | some e => some ({ m with isLoading := false, error := some e }, .noCmd)
    | none =>
      some (viewBlocks
        { m with
          isLoading := false, columns := columns, rows := rows,
          totalRows := totalRows, parquetReader := rd,
          currentRowOffset := rows.length,
          table := { rows := rows, cursor := 0 } } msg)
  | .moreRowsMsg err newRow =>
    match err with
    | some e => some ({ m with error := some e }, .noCmd)
    | none =>
      match m.rows with
      | [] => none
      | _ :: rest =>
        some ({ m with
                rows := rest ++ [newRow],
                currentRowOffset := m.currentRowOffset + 1,
                table := { rows := rest ++ [newRow],
                           cursor := ((rest ++ [newRow]).length : Int) - 1 } },
          .noCmd)

/-- The background load command (source lines 296-481) as a function of
the file's record sequence.  A valid (well-formed) file yields one
record per in-range read, so the initial fill reads the first
`min(totalRows, maxRows)` records and leaves the forward-only reader
positioned after them. -/
def loadParquetData (maxRows : Nat) (file : List Rec) : Msg :=
  match file with
  | [] => .parquetDataMsg (some "could not determine columns from parquet file") [] [] 0 none
  | sample :: _ =>
    if (extractColumns sample).length = 0 then
      .parquetDataMsg (some "could not determine columns from parquet file") [] [] 0 none
    else
      .parquetDataMsg none (extractColumns sample)
        ((file.take (min file.length maxRows)).map (decodeRow (extractColumns sample)))
        file.length
        (some (file.drop (min file.length maxRows)))

/-- The background one-row command (source lines 484-559): result
message together with the reader state it leaves behind. -/
def loadMoreRows (m : Model) : Msg × Option (List Rec) :=
  match m.parquetReader with
  | none => (.moreRowsMsg (some "parquet reader is not initialized") [], none)
  | some [] => (.moreRowsMsg (some "no more rows to read") [], some [])
  | some (r :: rest) => (.moreRowsMsg none (decodeRow m.columns r), some rest)

/-- One open step of the system: the load command runs to completion on
the given file and its message is handled. -/
def systemOpen (file : List Rec) (m : Model) : Option (Model × Cmd) :=
  m.update (loadParquetData m.maxRows file)

/-- One advance step of the system: the one-row command runs (consuming
a record from the shared reader) and its message is handled. -/
def systemAdvance (m : Model) : Option (Model × Cmd) :=
  Model.update { m with parquetReader := (loadMoreRows m).2 } (loadMoreRows m).1

/-- The model `main` constructs when no path is given on the command
line (source lines 561-591). -/
def initialModel : Model :=
  { table := { rows := [], cursor := 0 }
    textInputValue := ""
    filePath := ""
    error := none
    columns := []
    rows := []
    maxRows := 32
    isLoading := false
    viewState := .InputView
    parquetFiles := []
    selectedFile := 0
    currentRowOffset := 0
    totalRows := 0
    parquetReader := none }

/-- What the `View` function renders (source lines 208-248), by screen. -/
inductive Rendered
  | inputScreen
  | fileSelectScreen
  | loadingScreen
  | errorScreen (e : String)
  | noDataScreen
  | tableScreen
deriving DecidableEq

/-- The `View` function's screen dispatch (source lines 208-248). -/
def Model.view (m : Model) : Rendered :=
  if m.viewState = .InputView then .inputScreen
  else if m.viewState = .FileSelectView then .fileSelectScreen
  else if m.isLoading then .loadingScreen
  else
    match m.error with
    | some e => .errorScreen e
    | none => if m.columns.length = 0 then .noDataScreen else .tableScreen

/-- Runs the model over a list of delivered messages, stopping with
`none` when a handler panics. -/
def runMsgs (m : Model) : List Msg → Option Model
  | [] => some m
  | msg :: rest =>
    match m.update msg with
    | none => none
    | some (m2, _) => runMsgs m2 rest

/-- A valid parquet file with `n` rows and one column `c`, with pairwise
distinct cell values. -/
def fileOf (n : Nat) : List Rec :=
  (List.range n).map fun i => Rec.mapShaped [("c", String.mk (List.replicate i 'x'))]

/-- The reader-position consistency the running system maintains: when a
reader is held, the records it has not yet delivered are exactly the
rows not yet read. -/
def readerSync (m : Model) : Bool :=
  match m.parquetReader with
  | none => true
  | some rd => m.currentRowOffset + rd.length == m.totalRows

/-- The RowWindow invariant of the specification
(`globalOffset + len(rows) ≤ totalRows`), strengthened with the reader
position consistency that makes it inductive. -/
def SysInv (m : Model) : Prop :=
  m.globalOffset + (m.rows.length : Int) ≤ (m.totalRows : Int) ∧ readerSync m = true

/-- Full conformance of a model to an open file: the bookkeeping fields
match the file, the reader holds exactly the unread records, and the
window holds the decoded rows `globalOffset .. globalOffset+len-1` in
source order. -/
def Conforms (file : List Rec) (m : Model) : Prop :=
  m.totalRows = file.length ∧
  m.rows.length ≤ m.currentRowOffset ∧
  m.currentRowOffset ≤ file.length ∧
  m.parquetReader = some (file.drop m.currentRowOffset) ∧
  m.rows = ((file.drop (m.currentRowOffset - m.rows.length)).take m.rows.length).map
    (decodeRow m.columns)

/-- Open a 50-row file from the input view, then move the cursor down 30
times: the cursor sits on row 30 of the 32-row window. -/
def c4trace : List Msg :=
  [Msg.keyMsg "a", Msg.keyMsg "enter", loadParquetData 32 (fileOf 50)] ++
    List.replicate 30 (Msg.keyMsg "down")

/-- Open a 100-row file from the input view, then move the cursor down 31
times: the last move lands on the last visible row and issues the
background one-row load. -/
def c8trace : List Msg :=
  [Msg.keyMsg "a", Msg.keyMsg "enter", loadParquetData 32 (fileOf 100)] ++
    List.replicate 31 (Msg.keyMsg "down")

/-- Type a path, open it, leave the table back to file selection while
the directory re-scan is in flight, press up on the still-empty
candidate list, then receive a scan result with one file. -/
def c10trace : List Msg :=
  [Msg.keyMsg "a", Msg.keyMsg "enter", Msg.keyMsg "q", Msg.keyMsg "up",
    Msg.parquetFilesMsg ["f.parquet"]]

/-- A model in the table view of the 3-row file `fileOf 3` with a 2-row
window at offset 0, used to instantiate the window theorems. -/
def wmodel : Model :=
  { table := { rows := ((fileOf 3).take 2).map (decodeRow ["c"]), cursor := 1 }
    textInputValue := ""
    filePath := "w.parquet"
    error := none
    columns := ["c"]
    rows := ((fileOf 3).take 2).map (decodeRow ["c"])
    maxRows := 2
    isLoading := false
    viewState := .TableView
    parquetFiles := []
    selectedFile := 0
    currentRowOffset := 2
    totalRows := 3
    parquetReader := some ((fileOf 3).drop 2) }

/-- A model sitting in the file-selection view while its row window
still holds the rows of a previously opened file. -/
def fsmodel : Model :=
  { table := { rows := [["a"], ["b"]], cursor := 1 }
    textInputValue := "x"
    filePath := "old.parquet"
    error := none
    columns := ["c"]
    rows := [["a"], ["b"]]
    maxRows := 32
    isLoading := false
    viewState := .FileSelectView
    parquetFiles := ["p.parquet", "q.parquet"]
    selectedFile := -1
    currentRowOffset := 2
    totalRows := 9
    parquetReader := none }

lemma colCells_false_ne_nil (c : String) (fs : List StructField) :
    colCells c fs false ≠ [] := by
  induction fs with
  | nil => simp [colCells]
  | cons f rest ih =>
    simp only [colCells]
    split
    · split
      · simp
      · exact ih
    · split
      · simp
      · exact ih

lemma length_flatMap_eq_of {α β : Type} (l : List α) (f : α → List β)
    (h : ∀ a ∈ l, (f a).length = 1) : (l.flatMap f).length = l.length := by
  induction l with
  | nil => rfl
  | cons a t ih =>
    rw [List.flatMap_cons, List.length_append, h a (List.mem_cons_self a t),
      ih fun b hb => h b (List.mem_cons_of_mem a hb), List.length_cons]
    omega

lemma length_flatMap_le {α β : Type} (l : List α) (f : α → List β)
    (h : ∀ a ∈ l, 1 ≤ (f a).length) : l.length ≤ (l.flatMap f).length := by
  induction l with
  | nil => exact Nat.le_refl 0
  | cons a t ih =>
    rw [List.flatMap_cons, List.length_append, List.length_cons]
    have h1 := h a (List.mem_cons_self a t)
    have h2 := ih fun b hb => h b (List.mem_cons_of_mem a hb)
    omega

/-- C5 counterexample: with columns `["B"]` and a struct-shaped record
whose first field carries the tag `name=B` and whose second field is an
untagged field literally named `B`, the decoder appends a cell for each
of the two matches (the tagged match only breaks the tag-part loop, not
the field loop), producing 2 cells for 1 column — so the decoder does
not always return exactly `len(Columns)` cells. -/
theorem c5_counterexample :
    decodeRow ["B"] (Rec.structShaped
      [{ name := "F1", tag := "name=B", value := "v1" },
       { name := "B", tag := "", value := "v2" }]) = ["v1", "v2"] ∧
    (["v1", "v2"] : List String).length ≠ (["B"] : List String).length := by
  exact ⟨by decide, by decide⟩

/-- C5 (amended): the Row Decoder is total and never returns fewer than
`len(Columns)` cells; it returns exactly `len(Columns)` cells for every
map-shaped record and every other-shaped record, and for struct-shaped
records whenever no column is matched by more than one field scan cell
(missing or unmappable fields become placeholder cells). -/
theorem c5_decoder_total :
    (∀ (cols : List String) (pairs : List (String × String)),
      (decodeRow cols (Rec.mapShaped pairs)).length = cols.length) ∧
    (∀ cols : List String, (decodeRow cols Rec.other).length = cols.length) ∧
    (∀ (cols : List String) (fields : List StructField),
      cols.length ≤ (decodeRow cols (Rec.structShaped fields)).length) ∧
    (∀ (cols : List String) (fields : List StructField),
      (∀ c ∈ cols, (colCells c fields false).length ≤ 1) →
      (decodeRow cols (Rec.structShaped fields)).length = cols.length) := by
  refine ⟨?_, ?_, ?_, ?_⟩
  · intro cols pairs
    exact length_flatMap_eq_of cols _ fun c _ => by
      cases h : List.lookup c pairs <;> simp [h]
  · intro cols
    exact length_flatMap_eq_of cols _ fun c _ => rfl
  · intro cols fields
    exact length_flatMap_le cols _ fun c _ =>
      List.length_pos.mpr (colCells_false_ne_nil c fields)
  · intro cols fields h
    exact length_flatMap_eq_of cols _ fun c hc =>
      Nat.le_antisymm (h c hc) (List.length_pos.mpr (colCells_false_ne_nil c fields))

/-- C5 witness: the amended decoder-totality theorem at columns `["a"]`
and the empty struct-shaped record. -/
theorem c5_decoder_total_witness :
    (decodeRow ["a"] (Rec.structShaped [])).length = (["a"] : List String).length :=
  c5_decoder_total.2.2.2 ["a"] [] (by decide)

/-- C6 counterexample: the two pair lists are permutations of each other
with distinct keys, so they model the same Go map observed in two
different range orders, yet schema extraction returns the columns in
two different orders — extraction is not determined by the record. -/
theorem c6_counterexample :
    ([("a", "1"), ("b", "2")] : List (String × String)).Perm [("b", "2"), ("a", "1")] ∧
    (([("a", "1"), ("b", "2")] : List (String × String)).map Prod.fst).Nodup ∧
    extractColumns (Rec.mapShaped [("a", "1"), ("b", "2")]) ≠
      extractColumns (Rec.mapShaped [("b", "2"), ("a", "1")]) := by
  exact ⟨by decide, by decide, by decide⟩

lemma structCols_eq_of_shape (fs : List StructField) :
    ∀ gs : List StructField,
      fs.map (fun f => (f.name, f.tag)) = gs.map (fun f => (f.name, f.tag)) →
      structCols fs = structCols gs := by
  induction fs with
  | nil =>
    intro gs h
    cases gs with
    | nil => rfl
    | cons g gs => simp at h
  | cons f rest ih =>
    intro gs h
    cases gs with
    | nil => simp at h
    | cons g gs =>
      simp only [List.map_cons, List.cons.injEq, Prod.mk.injEq] at h
      obtain ⟨⟨hn, ht⟩, hrest⟩ := h
      simp only [structCols, hn, ht, ih gs hrest]

/-- C6 (amended): schema extraction from a map-shaped record depends on
the map's iteration order, which Go does not fix across runs — only the
multiset of column names is determined (iteration orders that are
permutations of one another yield permuted column sequences); for
struct-shaped records extraction is deterministic, a function of the
declared field names and tags alone. -/
theorem c6_extraction_order :
    (∀ p q : List (String × String), p.Perm q →
      (extractColumns (Rec.mapShaped p)).Perm (extractColumns (Rec.mapShaped q))) ∧
    (∀ fs gs : List StructField,
      fs.map (fun f => (f.name, f.tag)) = gs.map (fun f => (f.name, f.tag)) →
      extractColumns (Rec.structShaped fs) = extractColumns (Rec.structShaped gs)) := by
  constructor
  · intro p q h
    exact h.map Prod.fst
  · intro fs gs h
    exact structCols_eq_of_shape fs gs h

/-- C6 witness: the amended extraction-order theorem at the two
iteration orders of the map with keys `a` and `b`. -/
theorem c6_extraction_order_witness :
    (extractColumns (Rec.mapShaped [("a", "1"), ("b", "2")])).Perm
      (extractColumns (Rec.mapShaped [("b", "2"), ("a", "1")])) :=
  c6_extraction_order.1 _ _ (by decide)

/-- C7 counterexample: a declared field whose tag is `type=INT32` (a
non-empty tag with no `name=` attribute) contributes no column at all —
the extractor does not fall back to the field identifier `A`, so not
every declared field contributes exactly one column. -/
theorem c7_counterexample :
    extractColumns (Rec.structShaped
      [{ name := "A", tag := "type=INT32", value := "1" }]) = [] ∧
    extractColumns (Rec.structShaped
      [{ name := "A", tag := "type=INT32", value := "1" }]) ≠ ["A"] := by
  exact ⟨by decide, by decide⟩

lemma firstTagName_isSome (parts : List String) :
    (firstTagName parts).isSome = parts.any fun p => (nameAttr p.data).isSome := by
  induction parts with
  | nil => rfl
  | cons p rest ih =>
    simp only [firstTagName, List.any_cons]
    cases h : nameAttr p.data <;> simp [h, ih]

lemma structCols_length (fs : List StructField) :
    (structCols fs).length =
      (fs.filter fun f => f.tag == "" ||
        (tagParts f.tag).any fun p => (nameAttr p.data).isSome).length := by
  induction fs with
  | nil => rfl
  | cons f rest ih =>
    by_cases htag : f.tag = ""
    · simp [structCols, List.filter_cons, htag, ih]
    · cases hf : firstTagName (tagParts f.tag) with
      | none =>
        have hany : ((tagParts f.tag).any fun p => (nameAttr p.data).isSome) = false := by
          rw [← firstTagName_isSome, hf]
          rfl
        simp [structCols, List.filter_cons, htag, hf, hany, ih]
      | some n =>
        have hany : ((tagParts f.tag).any fun p => (nameAttr p.data).isSome) = true := by
          rw [← firstTagName_isSome, hf]
          rfl
        simp [structCols, List.filter_cons, htag, hf, hany, ih]

/-- C7 (amended): walking the declared fields in order, an untagged
field contributes exactly one column — its own identifier; a field
whose non-empty tag carries a `name=` attribute contributes exactly one
column — the first such attribute's trimmed value; but a field whose
non-empty tag has no `name=` attribute contributes no column (no
fallback to the identifier), so the number of columns equals the number
of contributing fields, not the number of declared fields. -/
theorem c7_struct_schema :
    (∀ (f : StructField) (rest : List StructField), f.tag = "" →
      extractColumns (Rec.structShaped (f :: rest)) =
        f.name :: extractColumns (Rec.structShaped rest)) ∧
    (∀ (f : StructField) (rest : List StructField) (n : String), f.tag ≠ "" →
      firstTagName (tagParts f.tag) = some n →
      extractColumns (Rec.structShaped (f :: rest)) =
        n :: extractColumns (Rec.structShaped rest)) ∧
    (∀ (f : StructField) (rest : List StructField), f.tag ≠ "" →
      firstTagName (tagParts f.tag) = none →
      extractColumns (Rec.structShaped (f :: rest)) =
        extractColumns (Rec.structShaped rest)) ∧
    (∀ tag : String, (firstTagName (tagParts tag)).isSome =
      (tagParts tag).any fun p => (nameAttr p.data).isSome) ∧
    (∀ fs : List StructField, (extractColumns (Rec.structShaped fs)).length =
      (fs.filter fun f => f.tag == "" ||
        (tagParts f.tag).any fun p => (nameAttr p.data).isSome).length) := by
  refine ⟨?_, ?_, ?_, fun tag => firstTagName_isSome (tagParts tag), structCols_length⟩
  · intro f rest h
    simp [extractColumns, structCols, h]
  · intro f rest n h hf
    simp [extractColumns, structCols, h, hf]
  · intro f rest h hf
    simp [extractColumns, structCols, h, hf]

/-- C7 witness: the amended schema theorem at a field tagged
`name=B, type=INT32`. -/
theorem c7_struct_schema_witness :
    extractColumns (Rec.structShaped
      [{ name := "A", tag := "name=B, type=INT32", value := "1" }]) =
      "B" :: extractColumns (Rec.structShaped []) :=
  c7_struct_schema.2.1 { name := "A", tag := "name=B, type=INT32", value := "1" } [] "B"
    (by decide) (by decide)

/-- C4: evaluating the reachable table-view state of a 50-row file with
window bound 32 (open, then 30 cursor-down moves).  The claim and the
spec require the next forward move onto the last visible row to trigger
`advance()` because unread rows remain (`globalOffset + len(rows) =
0 + 32 < 50 = totalRows`), but the handler's guard compares
`currentRowOffset + len(rows) = 32 + 32` against `totalRows = 50` and
issues no load: the cursor lands on row 31 with command `noCmd` instead
of `loadMore`, so rows 32..49 of the file can never be displayed. -/
theorem c4_advance_not_triggered :
    (runMsgs initialModel c4trace).map (fun m =>
      (m.globalOffset, (m.rows.length : Int), (m.totalRows : Int)))
      = some (0, 32, 50) ∧
    (runMsgs initialModel c4trace).map (fun m => m.table.cursor) = some 30 ∧
    (runMsgs initialModel c4trace).map (fun m =>
      (Model.update m (Msg.keyMsg "down")).map fun p => (p.1.table.cursor, p.2))
      = some (some (31, Cmd.noCmd)) := by
  exact ⟨by decide, by decide, by decide⟩

/-- C8 counterexample: open a 100-row file, move the cursor onto the
last visible row (issuing the background one-row read), press `q` to
leave the table view, then deliver the stale read's result.  The model
is in the file-selection state, yet handling the stale message still
slides the row buffer and increments the offset — the stale result is
not ignored. -/
theorem c8_counterexample :
    ((runMsgs initialModel c8trace).bind fun m1 =>
      (Model.update m1 (Msg.keyMsg "q")).bind fun p2 =>
        (Model.update p2.1 (loadMoreRows m1).1).map fun p3 =>
          (decide (p2.1.viewState = ViewState.FileSelectView),
           decide (p3.1.rows = p2.1.rows),
           decide (p3.1.globalOffset = p2.1.globalOffset),
           decide (p3.1.viewState = ViewState.FileSelectView)))
      = some (true, false, false, true) := by decide

/-- C8 (amended): a stale one-row result that arrives after the state
machine has left the `Table` state is not ignored: the `moreRowsMsg`
handler runs regardless of the view state, so a successful stale result
still slides the row buffer and increments the offset (only the view
state itself is left unchanged). -/
theorem c8_stale_not_ignored (m : Model) (newRow r0 : Row) (rest : List Row)
    (_hv : m.viewState = ViewState.FileSelectView)
    (hr : m.rows = r0 :: rest) :
    Model.update m (Msg.moreRowsMsg none newRow) =
      some ({ m with
              rows := rest ++ [newRow],
              currentRowOffset := m.currentRowOffset + 1,
              table := { rows := rest ++ [newRow],
                         cursor := ((rest ++ [newRow]).length : Int) - 1 } },
        Cmd.noCmd) := by
  simp only [Model.update, hr]

/-- C8 witness: the amended stale-result theorem at a concrete
file-selection model whose window still holds two rows. -/
theorem c8_stale_not_ignored_witness :
    Model.update fsmodel (Msg.moreRowsMsg none ["x"]) =
      some ({ fsmodel with
              rows := [["b"]] ++ [["x"]],
              currentRowOffset := fsmodel.currentRowOffset + 1,
              table := { rows := [["b"]] ++ [["x"]],
                         cursor := (([["b"]] ++ [["x"]]).length : Int) - 1 } },
        Cmd.noCmd) :=
  c8_stale_not_ignored fsmodel ["x"] ["a"] [["b"]] (by decide) (by decide)

/-- C10 counterexample: after typing a path, opening it, pressing `q`
back to the (still empty) file list, pressing `up` (driving
`selectedFile` to -1) and then receiving a scan result with one file,
the model sits in the file-selection state with a non-empty candidate
list and `selectedFile = -1`; pressing `enter` indexes
`parquetFiles[-1]` — out of bounds, a runtime panic (`none`) — so the
claimed bounds invariant does not hold in every reachable state. -/
theorem c10_counterexample :
    (runMsgs initialModel c10trace).map (fun m =>
      (decide (m.viewState = ViewState.FileSelectView), m.selectedFile,
        (m.parquetFiles.length : Int),
        decide (Model.update m (Msg.keyMsg "enter") = none)))
      = some (true, -1, 1, true) := by decide

lemma viewBlocks_shape (m : Model) (msg : Msg) :
    ∃ t v c, viewBlocks m msg = ({ m with table := t, textInputValue := v }, c) := by
  unfold viewBlocks
  split
  · exact ⟨m.table, textInputUpdate m.textInputValue msg, .noCmd, rfl⟩
  · split
    · split
      · exact ⟨tableUpdate m.table msg, m.textInputValue, .loadMore, rfl⟩
      · exact ⟨tableUpdate m.table msg, m.textInputValue, .noCmd, rfl⟩
    · exact ⟨m.table, m.textInputValue, .noCmd, rfl⟩

lemma viewBlocks_some_frame (m2 : Model) (msg : Msg) (m' : Model) (cmd : Cmd)
    (h : viewBlocks m2 msg = (m', cmd)) :
    m'.rows = m2.rows ∧ m'.currentRowOffset = m2.currentRowOffset ∧
    m'.totalRows = m2.totalRows ∧ m'.columns = m2.columns ∧
    m'.error = m2.error ∧ m'.parquetReader = m2.parquetReader ∧
    m'.viewState = m2.viewState ∧ m'.parquetFiles = m2.parquetFiles ∧
    m'.selectedFile = m2.selectedFile ∧ m'.isLoading = m2.isLoading ∧
    m'.maxRows = m2.maxRows ∧ m'.filePath = m2.filePath := by
  obtain ⟨t, v, c, hvb⟩ := viewBlocks_shape m2 msg
  rw [hvb] at h
  injection h with h1 h2
  subst h1
  exact ⟨rfl, rfl, rfl, rfl, rfl, rfl, rfl, rfl, rfl, rfl, rfl, rfl⟩

lemma update_keyMsg_frame (m : Model) (k : String) (m' : Model) (cmd : Cmd)
    (h : Model.update m (Msg.keyMsg k) = some (m', cmd)) :
    m'.rows = m.rows ∧ m'.currentRowOffset = m.currentRowOffset ∧
    m'.totalRows = m.totalRows ∧ m'.columns = m.columns ∧
    m'.error = m.error ∧
    (m'.parquetReader = m.parquetReader ∨ m'.parquetReader = none) := by
  simp only [Model.update] at h
  split at h
  · simp only [Option.some.injEq, Prod.mk.injEq] at h
    obtain ⟨hm, -⟩ := h
    subst hm
    exact ⟨rfl, rfl, rfl, rfl, rfl, Or.inl rfl⟩
  · split at h
    · split at h
      · simp only [Option.some.injEq, Prod.mk.injEq] at h
        obtain ⟨hm, -⟩ := h
        subst hm
        exact ⟨rfl, rfl, rfl, rfl, rfl, Or.inr rfl⟩
      · have hf := viewBlocks_some_frame _ _ _ _ (Option.some.inj h)
        exact ⟨hf.1, hf.2.1, hf.2.2.1, hf.2.2.2.1, hf.2.2.2.2.1,
          Or.inl hf.2.2.2.2.2.1⟩
    · split at h
      · split at h
        · simp only [Option.some.injEq, Prod.mk.injEq] at h
          obtain ⟨hm, -⟩ := h
          subst hm
          exact ⟨rfl, rfl, rfl, rfl, rfl, Or.inl rfl⟩
        · split at h
          · split at h
            · simp only [Option.some.injEq, Prod.mk.injEq] at h
              obtain ⟨hm, -⟩ := h
              subst hm
              exact ⟨rfl, rfl, rfl, rfl, rfl, Or.inl rfl⟩
            · exact Option.noConfusion h
          · have hf := viewBlocks_some_frame _ _ _ _ (Option.some.inj h)
            exact ⟨hf.1, hf.2.1, hf.2.2.1, hf.2.2.2.1, hf.2.2.2.2.1,
              Or.inl hf.2.2.2.2.2.1⟩
      · split at h
        · split at h
          · have hf := viewBlocks_some_frame _ _ _ _ (Option.some.inj h)
            exact ⟨hf.1, hf.2.1, hf.2.2.1, hf.2.2.2.1, hf.2.2.2.2.1,
              Or.inl hf.2.2.2.2.2.1⟩
          · have hf := viewBlocks_some_frame _ _ _ _ (Option.some.inj h)
            exact ⟨hf.1, hf.2.1, hf.2.2.1, hf.2.2.2.1, hf.2.2.2.2.1,
              Or.inl hf.2.2.2.2.2.1⟩
        · split at h
          · split at h
            · have hf := viewBlocks_some_frame _ _ _ _ (Option.some.inj h)
              exact ⟨hf.1, hf.2.1, hf.2.2.1, hf.2.2.2.1, hf.2.2.2.2.1,
                Or.inl hf.2.2.2.2.2.1⟩
            · have hf := viewBlocks_some_frame _ _ _ _ (Option.some.inj h)
              exact ⟨hf.1, hf.2.1, hf.2.2.1, hf.2.2.2.1, hf.2.2.2.2.1,
                Or.inl hf.2.2.2.2.2.1⟩
          · have hf := viewBlocks_some_frame _ _ _ _ (Option.some.inj h)
            exact ⟨hf.1, hf.2.1, hf.2.2.1, hf.2.2.2.1, hf.2.2.2.2.1,
              Or.inl hf.2.2.2.2.2.1⟩

lemma update_filesMsg (m : Model) (files : List String) :
    Model.update m (Msg.parquetFilesMsg files) =
      some ({ m with
              parquetFiles := files,
              viewState := if 0 < files.length then .FileSelectView else m.viewState },
        Cmd.noCmd) := rfl

lemma update_dataErr (m : Model) (e : String) (cols : List String) (rows : List Row)
    (T : Nat) (rd : Option (List Rec)) :
    Model.update m (Msg.parquetDataMsg (some e) cols rows T rd) =
      some ({ m with isLoading := false, error := some e }, Cmd.noCmd) := rfl

lemma update_dataOk (m : Model) (cols : List String) (rows : List Row)
    (T : Nat) (rd : Option (List Rec)) :
    Model.update m (Msg.parquetDataMsg none cols rows T rd) =
      some (viewBlocks
        { m with
          isLoading := false, columns := cols, rows := rows,
          totalRows := T, parquetReader := rd,
          currentRowOffset := rows.length,
          table := { rows := rows, cursor := 0 } }
        (Msg.parquetDataMsg none cols rows T rd)) := rfl

lemma update_moreErr (m : Model) (e : String) (row : Row) :
    Model.update m (Msg.moreRowsMsg (some e) row) =
      some ({ m with error := some e }, Cmd.noCmd) := rfl

lemma update_moreOk (m : Model) (row r0 : Row) (t : List Row) (hr : m.rows = r0 :: t) :
    Model.update m (Msg.moreRowsMsg none row) =
      some ({ m with
              rows := t ++ [row],
              currentRowOffset := m.currentRowOffset + 1,
              table := { rows := t ++ [row],
                         cursor := ((t ++ [row]).length : Int) - 1 } },
        Cmd.noCmd) := by
  simp only [Model.update, hr]

/-- C9: no message handler ever resets the error slot — once the model
carries an error, every successfully handled message leaves some error
in place (in particular a later successful load does not clear it), and
a non-loading table view with an error renders the error text, not the
table. -/
theorem c9_error_sticky :
    (∀ (m : Model) (msg : Msg) (m' : Model) (cmd : Cmd),
      m.error ≠ none → Model.update m msg = some (m', cmd) → m'.error ≠ none) ∧
    (∀ (m : Model) (e : String),
      m.viewState = ViewState.TableView → m.isLoading = false →
      m.error = some e → Model.view m = Rendered.errorScreen e) := by
  constructor
  · intro m msg m' cmd herr h
    cases msg with
    | parquetFilesMsg files =>
      rw [update_filesMsg] at h
      simp only [Option.some.injEq, Prod.mk.injEq] at h
      obtain ⟨hm, -⟩ := h
      subst hm
      exact herr
    | keyMsg k =>
      obtain ⟨-, -, -, -, he, -⟩ := update_keyMsg_frame m k m' cmd h
      rw [he]
      exact herr
    | parquetDataMsg err cols rows T rd =>
      cases err with
      | some e =>
        rw [update_dataErr] at h
        simp only [Option.some.injEq, Prod.mk.injEq] at h
        obtain ⟨hm, -⟩ := h
        subst hm
        simp
      | none =>
        rw [update_dataOk] at h
        have hf := viewBlocks_some_frame _ _ _ _ (Option.some.inj h)
        rw [hf.2.2.2.2.1]
        exact herr
    | moreRowsMsg err row =>
      cases err with
      | some e =>
        rw [update_moreErr] at h
        simp only [Option.some.injEq, Prod.mk.injEq] at h
        obtain ⟨hm, -⟩ := h
        subst hm
        simp
      | none =>
        cases hr : m.rows with
        | nil =>
          rw [show Model.update m (Msg.moreRowsMsg none row) = none by
            simp only [Model.update, hr]] at h
          exact Option.noConfusion h
        | cons r0 t =>
          rw [update_moreOk m row r0 t hr] at h
          simp only [Option.some.injEq, Prod.mk.injEq] at h
          obtain ⟨hm, -⟩ := h
          subst hm
          exact herr
  · intro m e hv hl he
    simp [Model.view, hv, hl, he]

/-- C9 witness: the error-stickiness theorem at a model carrying an
error that then receives a successful load result. -/
theorem c9_error_sticky_witness :
    (Model.update { fsmodel with error := some "boom" }
        (Msg.parquetDataMsg none ["c"] [["v"]] 1 (some []))).elim False
      (fun p => p.1.error ≠ none) := by
  cases hEq : Model.update { fsmodel with error := some "boom" }
      (Msg.parquetDataMsg none ["c"] [["v"]] 1 (some [])) with
  | none => exact absurd hEq (by decide)
  | some p =>
    exact c9_error_sticky.1 { fsmodel with error := some "boom" }
      (Msg.parquetDataMsg none ["c"] [["v"]] 1 (some [])) p.1 p.2 (by decide) hEq

/-- C10 (amended): the claimed invariant is false — `c10_counterexample`
reaches a state where `enter` indexes out of bounds — but the two
mechanisms the claim cites are individually sound for the current list:
up/down on a non-empty candidate list wrap the selection back into
`[0, len)` from any selection in `[-1, len]`, and `enter` with an
in-bounds selection opens exactly the selected file.  Out-of-bounds
access arises only when the candidate list changes under a stale
selection (a shorter or empty-then-non-empty rescan). -/
theorem c10_selection_bounds :
    (∀ (m : Model) (k : String) (m' : Model) (cmd : Cmd),
      m.viewState = ViewState.FileSelectView →
      0 < m.parquetFiles.length →
      -1 ≤ m.selectedFile → m.selectedFile ≤ (m.parquetFiles.length : Int) →
      (k = "up" ∨ k = "k" ∨ k = "down" ∨ k = "j") →
      Model.update m (Msg.keyMsg k) = some (m', cmd) →
      0 ≤ m'.selectedFile ∧ m'.selectedFile < (m'.parquetFiles.length : Int)) ∧
    (∀ (m : Model) (f : String),
      m.viewState = ViewState.FileSelectView →
      0 ≤ m.selectedFile →
      m.parquetFiles.get? m.selectedFile.toNat = some f →
      Model.update m (Msg.keyMsg "enter") =
        some ({ m with filePath := f, isLoading := true, viewState := ViewState.TableView },
          Cmd.loadData f m.maxRows)) := by
  constructor
  · intro m k m' cmd hv hlen hlo hhi hk h
    rcases hk with rfl | rfl | rfl | rfl <;>
      simp only [Model.update, String.reduceEq, or_self, or_false, false_or, if_false,
        reduceIte, hv, if_true, reduceCtorEq, false_and, true_and] at h <;>
      have hf := viewBlocks_some_frame _ _ _ _ (Option.some.inj h) <;>
      have hp : m'.parquetFiles = m.parquetFiles := hf.2.2.2.2.2.2.2.1
    · have hs : m'.selectedFile = (if m.selectedFile - 1 < 0 then
          (m.parquetFiles.length : Int) - 1 else m.selectedFile - 1) :=
        hf.2.2.2.2.2.2.2.2.1
      rw [hs, hp]
      split_ifs <;> omega
    · have hs : m'.selectedFile = (if m.selectedFile - 1 < 0 then
          (m.parquetFiles.length : Int) - 1 else m.selectedFile - 1) :=
        hf.2.2.2.2.2.2.2.2.1
      rw [hs, hp]
      split_ifs <;> omega
    · have hs : m'.selectedFile = (if (m.parquetFiles.length : Int) ≤ m.selectedFile + 1
          then 0 else m.selectedFile + 1) :=
        hf.2.2.2.2.2.2.2.2.1
      rw [hs, hp]
      split_ifs <;> omega
    · have hs : m'.selectedFile = (if (m.parquetFiles.length : Int) ≤ m.selectedFile + 1
          then 0 else m.selectedFile + 1) :=
        hf.2.2.2.2.2.2.2.2.1
      rw [hs, hp]
      split_ifs <;> omega
  · intro m f hv h0 hget
    have hlt : m.selectedFile.toNat < m.parquetFiles.length := by
      by_contra hle
      rw [List.get?_eq_none.mpr (Nat.le_of_not_lt hle)] at hget
      exact Option.noConfusion hget
    have hpos : 0 < m.parquetFiles.length := Nat.lt_of_le_of_lt (Nat.zero_le _) hlt
    simp only [Model.update, String.reduceEq, hv, reduceCtorEq, false_and, if_false, true_and,
      reduceIte, hpos, if_true, h0, if_pos, hget, or_self, if_false]

/-- C10 witness: the amended selection-bounds theorem at a
file-selection model with two candidates and stale selection -1, where
`up` wraps the selection back to 1. -/
theorem c10_selection_bounds_witness :
    (Model.update fsmodel (Msg.keyMsg "up")).elim False
      (fun p => 0 ≤ p.1.selectedFile ∧ p.1.selectedFile < (p.1.parquetFiles.length : Int)) := by
  cases hEq : Model.update fsmodel (Msg.keyMsg "up") with
  | none => exact absurd hEq (by decide)
  | some p =>
    exact c10_selection_bounds.1 fsmodel "up" p.1 p.2 (by decide) (by decide) (by decide)
      (by decide) (Or.inl rfl) hEq

lemma readerSync_none (m : Model) (hr : m.parquetReader = none) : readerSync m = true := by
  simp [readerSync, hr]

lemma readerSync_some (m : Model) (rd : List Rec) (hr : m.parquetReader = some rd) :
    readerSync m = true ↔ m.currentRowOffset + rd.length = m.totalRows := by
  simp [readerSync, hr]

lemma systemOpen_ok (sample : Rec) (more : List Rec) (m m' : Model) (cmd : Cmd)
    (hcols : extractColumns sample ≠ [])
    (h : systemOpen (sample :: more) m = some (m', cmd)) :
    m'.rows = ((sample :: more).take (min (sample :: more).length m.maxRows)).map
      (decodeRow (extractColumns sample)) ∧
    m'.currentRowOffset = m'.rows.length ∧
    m'.totalRows = (sample :: more).length ∧
    m'.columns = extractColumns sample ∧
    m'.parquetReader =
      some ((sample :: more).drop (min (sample :: more).length m.maxRows)) ∧
    m'.error = m.error := by
  have hlen : ¬((extractColumns sample).length = 0) := by
    simpa [List.length_eq_zero] using hcols
  simp only [systemOpen, loadParquetData] at h
  rw [if_neg hlen] at h
  rw [update_dataOk] at h
  have hf := viewBlocks_some_frame _ _ _ _ (Option.some.inj h)
  refine ⟨hf.1, ?_, hf.2.2.1, hf.2.2.2.1, hf.2.2.2.2.2.1, hf.2.2.2.2.1⟩
  rw [hf.2.1, hf.1]

/-- C1: for every valid file (non-empty, with a derivable schema) with
`totalRows = T`, opened with window bound `W = maxRows` (32 in the
model built by `main`), the state immediately after the initial load
holds exactly `min(W, T)` rows and its `globalOffset` (rows evicted
since open, `currentRowOffset - len(rows)`) is 0. -/
theorem c1_initial_window (W : Nat) (sample : Rec) (more : List Rec)
    (m m' : Model) (cmd : Cmd)
    (hW : m.maxRows = W)
    (hcols : extractColumns sample ≠ [])
    (h : systemOpen (sample :: more) m = some (m', cmd)) :
    m'.rows.length = min W (sample :: more).length ∧
    m'.globalOffset = 0 ∧
    initialModel.maxRows = 32 := by
  obtain ⟨hrows, hcro, hT, -, -, -⟩ := systemOpen_ok sample more m m' cmd hcols h
  refine ⟨?_, ?_, rfl⟩
  · rw [hrows, List.length_map, List.length_take, hW]
    omega
  · simp only [Model.globalOffset, hcro]
    omega

/-- C1 witness: opening the one-row file `fileOf 1` from the initial
model (window bound 32) yields a window of `min 32 1` rows at
`globalOffset` 0. -/
theorem c1_initial_window_witness :
    (systemOpen (fileOf 1) initialModel).elim False
      (fun p => p.1.rows.length = min 32 (fileOf 1).length ∧ p.1.globalOffset = 0 ∧
        initialModel.maxRows = 32) := by
  cases hEq : systemOpen (fileOf 1) initialModel with
  | none => exact absurd hEq (by decide)
  | some p =>
    exact c1_initial_window 32 (Rec.mapShaped [("c", "")]) [] initialModel p.1 p.2
      rfl (by decide) hEq

lemma sysInv_open (sample : Rec) (more : List Rec) (m m' : Model) (cmd : Cmd)
    (hcols : extractColumns sample ≠ [])
    (h : systemOpen (sample :: more) m = some (m', cmd)) : SysInv m' := by
  obtain ⟨hrows, hcro, hT, -, hrd, -⟩ := systemOpen_ok sample more m m' cmd hcols h
  have hn : m'.rows.length = min ((sample :: more).length) m.maxRows := by
    rw [hrows, List.length_map, List.length_take]
    omega
  constructor
  · simp only [Model.globalOffset]
    omega
  · rw [readerSync_some m' _ hrd, List.length_drop]
    omega

lemma sysInv_advance (m m' : Model) (cmd : Cmd)
    (hinv : SysInv m) (h : systemAdvance m = some (m', cmd)) : SysInv m' := by
  obtain ⟨hoff, hsync⟩ := hinv
  cases hr : m.parquetReader with
  | none =>
    simp only [systemAdvance, loadMoreRows, hr] at h
    rw [update_moreErr] at h
    simp only [Option.some.injEq, Prod.mk.injEq] at h
    obtain ⟨hm, -⟩ := h
    subst hm
    exact ⟨hoff, readerSync_none _ rfl⟩
  | some rd =>
    cases rd with
    | nil =>
      simp only [systemAdvance, loadMoreRows, hr] at h
      rw [update_moreErr] at h
      simp only [Option.some.injEq, Prod.mk.injEq] at h
      obtain ⟨hm, -⟩ := h
      subst hm
      refine ⟨hoff, ?_⟩
      rw [readerSync_some _ [] rfl]
      have := (readerSync_some m [] hr).mp hsync
      simpa using this
    | cons r rest =>
      have hlen := (readerSync_some m (r :: rest) hr).mp hsync
      simp only [systemAdvance, loadMoreRows, hr] at h
      cases hrw : m.rows with
      | nil =>
        rw [show (Model.update { m with parquetReader := some rest }
            (Msg.moreRowsMsg none (decodeRow m.columns r))) = none by
          simp only [Model.update, hrw]] at h
        exact Option.noConfusion h
      | cons r0 t =>
        rw [update_moreOk { m with parquetReader := some rest }
          (decodeRow m.columns r) r0 t hrw] at h
        simp only [Option.some.injEq, Prod.mk.injEq] at h
        obtain ⟨hm, -⟩ := h
        subst hm
        constructor
        · simp only [List.length_cons] at hlen
          simp [Model.globalOffset, List.length_append]
          omega
        · rw [readerSync_some _ rest rfl]
          simp only [List.length_cons] at hlen
          simp
          omega

lemma sysInv_key (m m' : Model) (cmd : Cmd) (k : String)
    (hinv : SysInv m) (h : Model.update m (Msg.keyMsg k) = some (m', cmd)) : SysInv m' := by
  obtain ⟨hrows, hcro, hT, -, -, hrd⟩ := update_keyMsg_frame m k m' cmd h
  constructor
  · simp only [Model.globalOffset, hrows, hcro, hT]
    exact hinv.1
  · rcases hrd with hsame | hnone
    · cases hmr : m.parquetReader with
      | none => exact readerSync_none m' (hsame.trans hmr)
      | some rd =>
        rw [readerSync_some m' rd (hsame.trans hmr), hcro, hT]
        exact (readerSync_some m rd hmr).mp hinv.2
    · exact readerSync_none m' hnone

lemma sysInv_files (m m' : Model) (cmd : Cmd) (files : List String)
    (hinv : SysInv m) (h : Model.update m (Msg.parquetFilesMsg files) = some (m', cmd)) :
    SysInv m' := by
  rw [update_filesMsg] at h
  simp only [Option.some.injEq, Prod.mk.injEq] at h
  obtain ⟨hm, -⟩ := h
  subst hm
  exact hinv

lemma sysInv_open_any (file : List Rec) (m m' : Model) (cmd : Cmd)
    (hinv : SysInv m) (h : systemOpen file m = some (m', cmd)) : SysInv m' := by
  cases file with
  | nil =>
    simp only [systemOpen, loadParquetData] at h
    rw [update_dataErr] at h
    simp only [Option.some.injEq, Prod.mk.injEq] at h
    obtain ⟨hm, -⟩ := h
    subst hm
    exact hinv
  | cons sample more =>
    by_cases hc : (extractColumns sample).length = 0
    · simp only [systemOpen, loadParquetData] at h
      rw [if_pos hc, update_dataErr] at h
      simp only [Option.some.injEq, Prod.mk.injEq] at h
      obtain ⟨hm, -⟩ := h
      subst hm
      exact hinv
    · exact sysInv_open sample more m m' cmd
        (fun hnil => hc (by rw [hnil]; rfl)) h

/-- C2: the RowWindow invariant `globalOffset + len(rows) ≤ totalRows`
(with the reader-position consistency that makes it inductive) is
established by every successful open of a valid file and preserved by
every message-handling step: any further open, every advance, every key
event, and every directory-scan result. -/
theorem c2_window_invariant :
    (∀ (sample : Rec) (more : List Rec) (m m' : Model) (cmd : Cmd),
      extractColumns sample ≠ [] →
      systemOpen (sample :: more) m = some (m', cmd) → SysInv m') ∧
    (∀ (file : List Rec) (m m' : Model) (cmd : Cmd),
      SysInv m → systemOpen file m = some (m', cmd) → SysInv m') ∧
    (∀ (m m' : Model) (cmd : Cmd),
      SysInv m → systemAdvance m = some (m', cmd) → SysInv m') ∧
    (∀ (m m' : Model) (cmd : Cmd) (k : String),
      SysInv m → Model.update m (Msg.keyMsg k) = some (m', cmd) → SysInv m') ∧
    (∀ (m m' : Model) (cmd : Cmd) (files : List String),
      SysInv m → Model.update m (Msg.parquetFilesMsg files) = some (m', cmd) → SysInv m') :=
  ⟨fun sample more m m' cmd hc h => sysInv_open sample more m m' cmd hc h,
   fun file m m' cmd hi h => sysInv_open_any file m m' cmd hi h,
   fun m m' cmd hi h => sysInv_advance m m' cmd hi h,
   fun m m' cmd k hi h => sysInv_key m m' cmd k hi h,
   fun m m' cmd files hi h => sysInv_files m m' cmd files hi h⟩

/-- C2 witness: the invariant-preservation theorem at the concrete
table-view model `wmodel`, advanced one row. -/
theorem c2_window_invariant_witness :
    (systemAdvance wmodel).elim False (fun p => SysInv p.1) := by
  cases hEq : systemAdvance wmodel with
  | none => exact absurd hEq (by decide)
  | some p =>
    exact c2_window_invariant.2.2.1 wmodel p.1 p.2 ⟨by decide, by decide⟩ hEq

lemma window_slide (file : List Rec) (f : Rec → Row) (g len : Nat)
    (hlen : 0 < len) (hq : g + len < file.length) :
    (((file.drop g).take len).map f).drop 1 ++ [f (file.getD (g + len) Rec.other)] =
      ((file.drop (g + 1)).take len).map f := by
  have hg1 : g + 1 + (len - 1) = g + len := by omega
  have hlen' : len = (len - 1) + 1 := by omega
  rw [← List.map_drop, List.drop_take, List.drop_drop]
  conv_rhs => rw [hlen']
  rw [List.take_succ, List.map_append]
  congr 1
  rw [List.getElem?_drop, hg1, List.getElem?_eq_getElem hq]
  simp [List.getD_eq_getElem?_getD, List.getElem?_eq_getElem hq]

/-- C3: one successful advance step taken while
`globalOffset + len(rows) < totalRows` on a window that conforms to the
open file preserves `len(rows)`, increments `globalOffset` by exactly
one, re-establishes conformance (so sequences of such steps compose),
and afterwards `rows[i]` is the decoded source row `globalOffset + i`
for every index `i` of the window. -/
theorem c3_advance_step (file : List Rec) (m m' : Model) (cmd : Cmd)
    (hc : Conforms file m)
    (hlt : m.globalOffset + (m.rows.length : Int) < (m.totalRows : Int))
    (h : systemAdvance m = some (m', cmd)) :
    m'.rows.length = m.rows.length ∧
    m'.globalOffset = m.globalOffset + 1 ∧
    Conforms file m' ∧
    (∀ i : Nat, i < m'.rows.length →
      m'.rows[i]? = some (decodeRow m'.columns
        (file.getD (m'.currentRowOffset - m'.rows.length + i) Rec.other))) := by
  obtain ⟨hT, hlc, hcf, hrd, hrows⟩ := hc
  have hcro : m.currentRowOffset < file.length := by
    simp only [Model.globalOffset] at hlt
    omega
  have hdc : file.drop m.currentRowOffset =
      file[m.currentRowOffset] :: file.drop (m.currentRowOffset + 1) :=
    List.drop_eq_getElem_cons hcro
  rw [hdc] at hrd
  simp only [systemAdvance, loadMoreRows, hrd] at h
  cases hrw : m.rows with
  | nil =>
    rw [show (Model.update
        { m with parquetReader := some (file.drop (m.currentRowOffset + 1)) }
        (Msg.moreRowsMsg none (decodeRow m.columns file[m.currentRowOffset]))) = none by
      simp only [Model.update, hrw]] at h
    exact Option.noConfusion h
  | cons r0 t =>
    rw [update_moreOk { m with parquetReader := some (file.drop (m.currentRowOffset + 1)) }
      (decodeRow m.columns file[m.currentRowOffset]) r0 t hrw] at h
    simp only [Option.some.injEq, Prod.mk.injEq] at h
    obtain ⟨hm, -⟩ := h
    subst hm
    have hlen0 : 0 < m.rows.length := by rw [hrw]; simp
    have hnl : (t ++ [decodeRow m.columns file[m.currentRowOffset]]).length =
        m.rows.length := by
      rw [hrw]
      simp
    have hslide := window_slide file (decodeRow m.columns)
      (m.currentRowOffset - m.rows.length) m.rows.length hlen0 (by omega)
    rw [show m.currentRowOffset - m.rows.length + m.rows.length = m.currentRowOffset by
      omega] at hslide
    rw [show file.getD m.currentRowOffset Rec.other = file[m.currentRowOffset] by
      simp [List.getD_eq_getElem?_getD, List.getElem?_eq_getElem hcro]] at hslide
    rw [show (((file.drop (m.currentRowOffset - m.rows.length)).take m.rows.length).map
        (decodeRow m.columns)).drop 1 = t by
      rw [← hrows, hrw]
      rfl] at hslide
    refine ⟨?_, ?_, ⟨hT, ?_, ?_, rfl, ?_⟩, ?_⟩
    · exact hnl.trans (congrArg List.length hrw)
    · show ((m.currentRowOffset + 1 : Nat) : Int) -
        ((t ++ [decodeRow m.columns file[m.currentRowOffset]]).length : Int) =
          m.globalOffset + 1
      rw [hnl]
      simp only [Model.globalOffset]
      omega
    · show (t ++ [decodeRow m.columns file[m.currentRowOffset]]).length ≤
        m.currentRowOffset + 1
      rw [hnl]
      omega
    · show m.currentRowOffset + 1 ≤ file.length
      omega
    · show t ++ [decodeRow m.columns file[m.currentRowOffset]] =
        ((file.drop (m.currentRowOffset + 1 -
          (t ++ [decodeRow m.columns file[m.currentRowOffset]]).length)).take
            (t ++ [decodeRow m.columns file[m.currentRowOffset]]).length).map
          (decodeRow m.columns)
      rw [hnl]
      rw [show m.currentRowOffset + 1 - m.rows.length =
        m.currentRowOffset - m.rows.length + 1 by omega]
      exact hslide
    · intro i hi
      have hi2 : i < (t ++ [decodeRow m.columns file[m.currentRowOffset]]).length := hi
      rw [hnl] at hi2
      have hb : m.currentRowOffset - m.rows.length + 1 + i < file.length := by omega
      show (t ++ [decodeRow m.columns file[m.currentRowOffset]])[i]? =
        some (decodeRow m.columns (file.getD (m.currentRowOffset + 1 -
          (t ++ [decodeRow m.columns file[m.currentRowOffset]]).length + i) Rec.other))
      conv_lhs => rw [hslide]
      rw [List.getElem?_map, List.getElem?_take_of_lt hi2, List.getElem?_drop,
        List.getElem?_eq_getElem hb, hnl]
      rw [show m.currentRowOffset + 1 - m.rows.length + i =
        m.currentRowOffset - m.rows.length + 1 + i by omega]
      simp [List.getD_eq_getElem?_getD, List.getElem?_eq_getElem hb]

/-- C3 witness: the advance-step theorem at the concrete conforming
model `wmodel` (3-row file, 2-row window at offset 0). -/
theorem c3_advance_step_witness :
    (systemAdvance wmodel).elim False
      (fun p => p.1.rows.length = wmodel.rows.length ∧
        p.1.globalOffset = wmodel.globalOffset + 1) := by
  cases hEq : systemAdvance wmodel with
  | none => exact absurd hEq (by decide)
  | some p =>
    have hres := c3_advance_step (fileOf 3) wmodel p.1 p.2
      ⟨by decide, by decide, by decide, by decide, by decide⟩ (by decide) hEq
    exact ⟨hres.1, hres.2.1⟩
